import Mathlib

/-!
Verification of the signature-event lifecycle subsystem of the
legal_practice_stack repository against its natural-language specification.

The definitions below are shallow embeddings of the TypeScript source:

* namespace AuditSvc      — src/server/signature-audit-service.ts
                            (updateSignatureRequestStatus, the status write and
                            audit append it performs, and the event-type
                            enumeration of src/drizzle/schema.ts)
* namespace Compliance    — verifySignatureCompliance
* namespace Report        — generateComplianceReport
* namespace CSVExport     — exportAuditTrailToCSV
* namespace Notifier      — the WebSocket notifications module

Dates are modelled as integers (milliseconds, as produced by Date.getTime);
strings stay strings; a JS Map is modelled as an association list with unique
keys; a JS Set as a duplicate-free list.
-/

namespace AuditSvc

/-- One row of the signatureRequests table, restricted to the fields touched
by the status-update path: status, signedDate, updatedAt. -/
structure SigRequest where
  status : String
  signedDate : Option Int
  updatedAt : Int
  deriving Repr, DecidableEq

/-- One row of the signatureEvents table, restricted to the fields written by
logSignatureEvent via updateSignatureRequestStatus. -/
structure SigEvent where
  signatureRequestId : Nat
  eventType : String
  actorId : Option Nat
  details : Option String
  deriving Repr, DecidableEq

/-- The persistent state the service mutates: the signatureRequests table
(keyed by id) and the append-only signatureEvents table. -/
structure ServiceState where
  requests : List (Nat × SigRequest)
  events : List SigEvent
  deriving Repr, DecidableEq

/-- The closed eventType enumeration of the signatureEvents table
(src/drizzle/schema.ts, mysqlEnum on eventType). -/
def eventTypeEnum : List String :=
  ["request_created", "request_sent", "document_viewed", "signature_initiated",
   "signature_completed", "signature_rejected", "signature_expired",
   "signature_cancelled", "certificate_verified", "timestamp_generated",
   "audit_accessed"]

/-- The allowed transition set of spec §4.2 (the claim's reference point):
pending→sent, sent→viewed, viewed→signed, pending/sent/viewed→rejected,
any non-terminal→expired, any non-terminal→cancelled. -/
def allowedTransitionSpec (fromStatus toStatus : String) : Bool :=
  let nonTerminal := fromStatus = "pending" ∨ fromStatus = "sent" ∨ fromStatus = "viewed"
  decide ((fromStatus = "pending" ∧ toStatus = "sent")
    ∨ (fromStatus = "sent" ∧ toStatus = "viewed")
    ∨ (fromStatus = "viewed" ∧ toStatus = "signed")
    ∨ (nonTerminal ∧ toStatus = "rejected")
    ∨ (nonTerminal ∧ toStatus = "expired")
    ∨ (nonTerminal ∧ toStatus = "cancelled"))

/-- The first db call of updateSignatureRequestStatus: the UPDATE that sets
status and updatedAt on every signatureRequests row whose id matches.  It
touches no other table; in particular the events log is unchanged. -/
def applyStatusWrite (st : ServiceState) (signatureRequestId : Nat)
    (status : String) (now : Int) : ServiceState :=
  { st with requests := st.requests.map (fun p =>
      if p.1 = signatureRequestId
      then (p.1, { p.2 with status := status, updatedAt := now })
      else p) }

/-- logSignatureEvent: a single INSERT into the signatureEvents table. -/
def logSignatureEvent (st : ServiceState) (ev : SigEvent) : ServiceState :=
  { st with events := st.events ++ [ev] }

/-- The audit event updateSignatureRequestStatus builds for a target status:
its eventType is the template string "signature_" ++ status. -/
def statusUpdateEvent (signatureRequestId : Nat) (status : String)
    (actorId : Option Nat) (details : Option String) : SigEvent :=
  { signatureRequestId := signatureRequestId,
    eventType := "signature_" ++ status,
    actorId := actorId,
    details := details }

/-- updateSignatureRequestStatus: writes the new status unconditionally, then
appends one audit event, and resolves to true.  The two db calls are separate
sequential awaits with no enclosing transaction, so the intermediate state
(status written, event not yet appended) is the state that persists if the
append throws. -/
def updateSignatureRequestStatus (st : ServiceState) (signatureRequestId : Nat)
    (status : String) (actorId : Option Nat) (details : Option String)
    (now : Int) : ServiceState × Bool :=
  let st1 := applyStatusWrite st signatureRequestId status now
  let st2 := logSignatureEvent st1
    (statusUpdateEvent signatureRequestId status actorId details)
  (st2, true)

/-- Association-list lookup used to read a request row back by id. -/
def getReq (m : List (Nat × SigRequest)) (k : Nat) : Option SigRequest :=
  match m with
  | [] => none
  | p :: t => if p.1 = k then some p.2 else getReq t k

end AuditSvc

namespace Compliance

/-- The request fields verifySignatureCompliance reads: signedDate and
documentHash (the latter NOT NULL in the schema, hence a plain string whose
JS truthiness is being non-empty). -/
structure SigRequestRow where
  signedDate : Option Int
  documentHash : String
  deriving Repr, DecidableEq

/-- The certificate fields verifySignatureCompliance reads. -/
structure CertRow where
  thumbprint : String
  validTo : Int
  status : String
  deriving Repr, DecidableEq

/-- One row inserted into signatureComplianceRecords: boolean-as-int flags,
as in the schema. -/
structure ComplianceRecord where
  signatureRequestId : Nat
  ley81Compliant : Nat
  nonRepudiationVerified : Nat
  certificateValid : Nat
  timestampValid : Nat
  documentIntegrityVerified : Nat
  complianceNotes : String
  deriving Repr, DecidableEq

/-- verifySignatureCompliance, after its two row fetches: computes the five
verdicts, inserts one ComplianceRecord, and returns isLey81Compliant.
Faithful points: isLey81Compliant is status == valid AND validTo > now, and
ignores the other three verdicts; the stored certificateValid flag checks
status only (not validTo). -/
def verifySignatureCompliance (signatureRequestId : Nat)
    (sigReq : SigRequestRow) (certificate : CertRow) (now : Int) :
    ComplianceRecord × Bool :=
  let isLey81Compliant := certificate.status = "valid" ∧ now < certificate.validTo
  let nonRepudiationVerified := certificate.thumbprint ≠ ""
  let certificateValid := certificate.status = "valid"
  let timestampValid := sigReq.signedDate.isSome
  let documentIntegrityVerified := sigReq.documentHash ≠ ""
  ({ signatureRequestId := signatureRequestId,
     ley81Compliant := if isLey81Compliant then 1 else 0,
     nonRepudiationVerified := if nonRepudiationVerified then 1 else 0,
     certificateValid := if certificateValid then 1 else 0,
     timestampValid := if timestampValid then 1 else 0,
     documentIntegrityVerified := if documentIntegrityVerified then 1 else 0,
     complianceNotes := "Ley 81 (2019) Compliance Check - "
       ++ (if isLey81Compliant then "PASSED" else "FAILED") },
   decide isLey81Compliant)

/-- The overall verdict as the claim states it (spec §4.3): certificateValid
means certificate status valid AND now ≤ validTo, and the overall verdict is
the conjunction of all four component verdicts.  Stated from the spec's words
for comparison with the source's verdict. -/
def claimOverallCompliant (sigReq : SigRequestRow) (certificate : CertRow)
    (now : Int) : Bool :=
  decide ((certificate.status = "valid" ∧ now ≤ certificate.validTo)
    ∧ certificate.thumbprint ≠ ""
    ∧ sigReq.signedDate.isSome
    ∧ sigReq.documentHash ≠ "")

end Compliance

namespace Report

/-- The signatureRequests fields generateComplianceReport reads. -/
structure ReqRow where
  status : String
  signedDate : Option Int
  createdAt : Int
  deriving Repr, DecidableEq

/-- The signatureComplianceRecords fields generateComplianceReport reads. -/
structure CompRow where
  ley81Compliant : Nat
  createdAt : Int
  deriving Repr, DecidableEq

/-- The numeric fields of the report row generateComplianceReport returns.
Percentages and times are rationals standing for the JS number arithmetic. -/
structure ReportRow where
  totalRequests : Nat
  completedSignatures : Nat
  pendingSignatures : Nat
  expiredSignatures : Nat
  rejectedSignatures : Nat
  ley81CompliantCount : Nat
  averageSigningTime : ℚ
  compliancePercentage : ℚ
  deriving Repr, DecidableEq

/-- generateComplianceReport: filters each table by its own createdAt lying
in the window, counts requests by status, counts compliance records with
ley81Compliant = 1, and computes compliancePercentage as
ley81CompliantCount / totalRequests * 100 (0 when totalRequests is 0).
Faithful point: the numerator counts compliance records in the window while
the denominator counts requests in the window. -/
def generateComplianceReport (allRequests : List ReqRow)
    (allComplianceRecords : List CompRow) (startDate endDate : Int) :
    ReportRow :=
  let requests := allRequests.filter
    (fun r => startDate ≤ r.createdAt ∧ r.createdAt ≤ endDate)
  let complianceRecords := allComplianceRecords.filter
    (fun r => startDate ≤ r.createdAt ∧ r.createdAt ≤ endDate)
  let totalRequests := requests.length
  let completedSignatures := (requests.filter (fun r => r.status = "signed")).length
  let pendingSignatures := (requests.filter
    (fun r => r.status = "pending" ∨ r.status = "sent")).length
  let expiredSignatures := (requests.filter (fun r => r.status = "expired")).length
  let rejectedSignatures := (requests.filter (fun r => r.status = "rejected")).length
  let ley81CompliantCount := (complianceRecords.filter
    (fun r => r.ley81Compliant = 1)).length
  let compliancePercentage : ℚ :=
    if 0 < totalRequests
    then ((ley81CompliantCount : ℚ) / (totalRequests : ℚ)) * 100
    else 0
  let signedRequests := requests.filter (fun r => r.signedDate.isSome)
  let totalTime : ℚ := signedRequests.foldl
    (fun sum r => sum + ((r.signedDate.getD 0 - r.createdAt : Int) : ℚ) / (1000 * 60 * 60)) 0
  let averageSigningTime : ℚ :=
    if 0 < signedRequests.length then totalTime / (signedRequests.length : ℚ) else 0
  { totalRequests := totalRequests,
    completedSignatures := completedSignatures,
    pendingSignatures := pendingSignatures,
    expiredSignatures := expiredSignatures,
    rejectedSignatures := rejectedSignatures,
    ley81CompliantCount := ley81CompliantCount,
    averageSigningTime := averageSigningTime,
    compliancePercentage := compliancePercentage }

end Report

namespace Notifier

/-- The JWT payload fields the connection handler reads. -/
structure UserPayload where
  id : Nat
  email : String
  role : String
  deriving Repr, DecidableEq

/-- The credential presented at connect time: absent token, token that fails
jwtVerify, or a verified payload. -/
inductive Credential where
  | missing : Credential
  | invalid : Credential
  | valid : UserPayload → Credential
  deriving Repr, DecidableEq

/-- One AdminConnection record together with the two fields the code keeps on
the underlying ws object: readyState and the lazily created subscriptions set
(none until the first subscribe message). -/
structure AdminConnection where
  userId : Nat
  email : String
  role : String
  connectedAt : Int
  lastHeartbeat : Int
  readyState : Nat
  subscriptions : Option (List String)
  deriving Repr, DecidableEq

/-- The two module-level registries: adminConnections (a Map keyed by
connectionId) and connectionsByUserId (a Map from userId to a Set of
connectionIds). -/
structure NotifierState where
  adminConnections : List (String × AdminConnection)
  connectionsByUserId : List (Nat × List String)
  deriving Repr, DecidableEq

/-- Map.get: first association for the key (keys are unique in a JS Map). -/
def mget {α β : Type} [DecidableEq α] (m : List (α × β)) (k : α) : Option β :=
  match m with
  | [] => none
  | p :: t => if p.1 = k then some p.2 else mget t k

/-- Map.set: replace the value at an existing key, else append the entry. -/
def mset {α β : Type} [DecidableEq α] (m : List (α × β)) (k : α) (v : β) :
    List (α × β) :=
  if m.any (fun p => p.1 = k)
  then m.map (fun p => if p.1 = k then (k, v) else p)
  else m ++ [(k, v)]

/-- Map.delete: drop the entry for the key. -/
def mdel {α β : Type} [DecidableEq α] (m : List (α × β)) (k : α) :
    List (α × β) :=
  m.filter (fun p => ¬ p.1 = k)

/-- Set.add on a duplicate-free list. -/
def sadd (l : List String) (x : String) : List String :=
  if x ∈ l then l else l ++ [x]

/-- Set.delete on a duplicate-free list. -/
def serase (l : List String) (x : String) : List String :=
  l.filter (fun y => ¬ y = x)

/-- The registration block of handleWebSocketConnection: build the connection
record, put it in adminConnections, and add the connectionId to the user's
set in connectionsByUserId (creating the set if absent). -/
def registerConnection (st : NotifierState) (connectionId : String)
    (u : UserPayload) (now : Int) : NotifierState :=
  let connection : AdminConnection :=
    { userId := u.id, email := u.email, role := u.role,
      connectedAt := now, lastHeartbeat := now,
      readyState := 1, subscriptions := none }
  { adminConnections := mset st.adminConnections connectionId connection,
    connectionsByUserId :=
      match mget st.connectionsByUserId u.id with
      | none => mset st.connectionsByUserId u.id [connectionId]
      | some s => mset st.connectionsByUserId u.id (sadd s connectionId) }

/-- The outcome of a connect attempt: the socket was closed with a code and
reason, or the connection was established under a fresh connectionId. -/
inductive ConnectOutcome where
  | closed : Nat → String → ConnectOutcome
  | established : String → ConnectOutcome
  deriving Repr, DecidableEq

/-- handleWebSocketConnection: missing token, failed jwtVerify, and non-admin
role each close the socket before anything is registered; only a verified
admin payload reaches the registration block. -/
def handleWebSocketConnection (st : NotifierState) (cred : Credential)
    (freshId : String) (now : Int) : NotifierState × ConnectOutcome :=
  match cred with
  | .missing => (st, .closed 1008 "Missing authentication token")
  | .invalid => (st, .closed 1008 "Invalid authentication token")
  | .valid u =>
    if u.role ≠ "admin" then (st, .closed 1008 "Admin access required")
    else (registerConnection st freshId u now, .established freshId)

/-- Client-to-server messages understood by handleWebSocketMessage. -/
inductive ClientMessage where
  | heartbeat : ClientMessage
  | subscribeToEvents : String → ClientMessage
  | unsubscribeFromEvents : String → ClientMessage
  | unknown : String → ClientMessage
  deriving Repr, DecidableEq

/-- handleWebSocketMessage: heartbeat refreshes lastHeartbeat; subscribe adds
to the (lazily created) subscriptions set; unsubscribe removes from it when it
exists; unknown types are logged and ignored. -/
def handleWebSocketMessage (st : NotifierState) (connectionId : String)
    (message : ClientMessage) (now : Int) : NotifierState :=
  match mget st.adminConnections connectionId with
  | none => st
  | some connection =>
    match message with
    | .heartbeat =>
      let conn2 := { connection with lastHeartbeat := now }
      { st with adminConnections := mset st.adminConnections connectionId conn2 }
    | .subscribeToEvents eventType =>
      let subs := match connection.subscriptions with
        | none => [eventType]
        | some s => sadd s eventType
      let conn2 := { connection with subscriptions := some subs }
      { st with adminConnections := mset st.adminConnections connectionId conn2 }
    | .unsubscribeFromEvents eventType =>
      match connection.subscriptions with
      | none => st
      | some s =>
        let conn2 := { connection with subscriptions := some (serase s eventType) }
        { st with adminConnections := mset st.adminConnections connectionId conn2 }
    | .unknown _ => st

/-- handleWebSocketClose: if the connection is registered, remove it from
adminConnections, remove its id from the user's set, and drop the user's
entry entirely when the set becomes empty. -/
def handleWebSocketClose (st : NotifierState) (connectionId : String) :
    NotifierState :=
  match mget st.adminConnections connectionId with
  | none => st
  | some connection =>
    { adminConnections := mdel st.adminConnections connectionId,
      connectionsByUserId :=
        match mget st.connectionsByUserId connection.userId with
        | none => st.connectionsByUserId
        | some userConnections =>
          let remaining := serase userConnections connectionId
          if remaining = []
          then mdel st.connectionsByUserId connection.userId
          else mset st.connectionsByUserId connection.userId remaining }

/-- The 90-second staleness threshold of checkHeartbeats, in milliseconds. -/
def staleThreshold : Int := 90000

/-- checkHeartbeats: over a snapshot of the registry, force-close every
connection whose time since last heartbeat exceeds the threshold. -/
def checkHeartbeats (st : NotifierState) (now : Int) : NotifierState :=
  (st.adminConnections.filter
    (fun p => staleThreshold < now - p.2.lastHeartbeat)).foldl
    (fun s p => handleWebSocketClose s p.1) st

/-- The per-connection delivery test of broadcastNotification: skip when a
subscriptions set exists and does not contain the event type, then send only
when readyState is OPEN (1). -/
def deliversTo (connection : AdminConnection) (eventType : String) : Bool :=
  (match connection.subscriptions with
   | some subscriptions => decide (eventType ∈ subscriptions)
   | none => true)
  && connection.readyState = 1

/-- broadcastNotification: the connectionIds the event is sent to. -/
def broadcastNotification (st : NotifierState) (eventType : String) :
    List String :=
  (st.adminConnections.filter (fun p => deliversTo p.2 eventType)).map
    (fun p => p.1)

/-- closeAllConnections: close every socket and clear both registries. -/
def closeAllConnections (_st : NotifierState) : NotifierState :=
  { adminConnections := [], connectionsByUserId := [] }

/-- Consistency of the two registries: unique keys on both maps; every
registered connection appears in the per-user index under exactly its
recorded userId; and every indexed connectionId is registered with that
userId, with no user mapped to an empty set. -/
def Invariant (st : NotifierState) : Prop :=
  (st.adminConnections.map Prod.fst).Nodup
  ∧ (st.connectionsByUserId.map Prod.fst).Nodup
  ∧ (∀ p ∈ st.adminConnections,
      ∃ l, mget st.connectionsByUserId p.2.userId = some l ∧ p.1 ∈ l)
  ∧ (∀ q ∈ st.connectionsByUserId, q.2 ≠ [] ∧
      ∀ cid ∈ q.2, ∃ c, mget st.adminConnections cid = some c ∧ c.userId = q.1)

end Notifier

namespace CSVExport

/-- Character-list view of a string; text is modelled as List Char so the
parser and printer can be reasoned about by structural induction. -/
def str (s : String) : List Char := s.data

/-- The signatureRequests fields exportAuditTrailToCSV reads; Date fields are
modelled by their toISOString rendering. -/
structure ReqRow where
  id : Nat
  signerEmail : List Char
  status : List Char
  createdAtIso : List Char
  signedDateIso : Option (List Char)
  deriving Repr, DecidableEq

/-- The signatureEvents fields exportAuditTrailToCSV reads. -/
structure EvRow where
  signatureRequestId : Nat
  eventType : List Char
  actorEmail : Option (List Char)
  createdAtIso : List Char
  deriving Repr, DecidableEq

/-- The eight cell strings of one CSV row: the event joined to its parent
request (empty strings where the request or a nullable field is absent). -/
def cellsOf (requests : List ReqRow) (event : EvRow) : List (List Char) :=
  let request := requests.find? (fun r => r.id = event.signatureRequestId)
  [ (Nat.repr event.signatureRequestId).data,
    (request.map (fun r => r.signerEmail)).getD [],
    (request.map (fun r => r.status)).getD [],
    (request.map (fun r => r.createdAtIso)).getD [],
    (request.bind (fun r => r.signedDateIso)).getD [],
    event.eventType,
    (event.actorEmail).getD [],
    event.createdAtIso ]

/-- The per-cell quoting of the source: the cell wrapped in double quotes,
with no escaping of embedded quote characters. -/
def quoteCell (cell : List Char) : List Char :=
  '"' :: cell ++ ['"']

/-- Array.join(",") over the quoted cells of one row. -/
def rowText : List (List Char) → List Char
  | [] => []
  | [cell] => quoteCell cell
  | cell :: cells => quoteCell cell ++ ',' :: rowText cells

/-- Array.join("\n") over the row texts. -/
def joinRows : List (List Char) → List Char
  | [] => []
  | [row] => row
  | row :: rows => row ++ '\n' :: joinRows rows

/-- The fixed header row of the export (without its trailing newline). -/
def csvHeaderRow : List Char :=
  str "Request ID,Signer Email,Status,Created At,Signed At,Event Type,Actor Email,Event Created At"

/-- exportAuditTrailToCSV: the header row, a newline, then one quoted row per
event in the window, joined by newlines. -/
def exportAuditTrailToCSV (requests : List ReqRow) (events : List EvRow) :
    List Char :=
  csvHeaderRow ++ '\n' ::
    joinRows (events.map (fun event => rowText (cellsOf requests event)))

/-- Separator test for unquoted CSV fields: true away from comma and
newline. -/
def notSep (c : Char) : Bool := !(c = ',' || c = '\n')

/-- Standard CSV quoted-field body parser, applied after an opening quote:
a doubled quote stands for a literal quote, a single quote closes the field.
Returns the field and the text after the closing quote. -/
def parseQuoted : List Char → Option (List Char × List Char)
  | [] => none
  | c :: rest =>
    if c = '"' then
      match rest with
      | c2 :: rest2 =>
        if c2 = '"' then (parseQuoted rest2).map (fun pr => ('"' :: pr.1, pr.2))
        else some ([], rest)
      | [] => some ([], [])
    else (parseQuoted rest).map (fun pr => (c :: pr.1, pr.2))

/-- Standard CSV field parser: a field is quoted when it starts with a double
quote, otherwise it extends to the next comma or newline. -/
def parseField : List Char → Option (List Char × List Char)
  | [] => some ([], [])
  | c :: rest =>
    if c = '"' then parseQuoted rest
    else some ((c :: rest).takeWhile notSep, (c :: rest).dropWhile notSep)

/-- Standard CSV row parser (fuelled for structural recursion): fields
separated by commas; the row ends at a newline (consumed) or at the end of
the text; any other character after a field is malformed. -/
def parseFields : Nat → List Char → Option (List (List Char) × List Char)
  | 0, _ => none
  | fuel + 1, s =>
    match parseField s with
    | none => none
    | some (f, rest) =>
      match rest with
      | ',' :: r => (parseFields fuel r).map (fun pr => (f :: pr.1, pr.2))
      | '\n' :: r => some ([f], r)
      | [] => some ([f], [])
      | _ => none

/-- Standard CSV text parser (fuelled): the list of rows of the text. -/
def parseCSVAux : Nat → List Char → Option (List (List (List Char)))
  | 0, _ => none
  | fuel + 1, s =>
    match s with
    | [] => some []
    | _ =>
      match parseFields (s.length + 1) s with
      | none => none
      | some (row, rest) => (parseCSVAux fuel rest).map (fun rows => row :: rows)

/-- Standard CSV text parser at its canonical fuel. -/
def parseCSV (s : List Char) : Option (List (List (List Char))) :=
  parseCSVAux (s.length + 1) s

/-- The eight header cell names, as the parser recovers them. -/
def headerCells : List (List Char) :=
  [str "Request ID", str "Signer Email", str "Status", str "Created At",
   str "Signed At", str "Event Type", str "Actor Email", str "Event Created At"]

/-- Array.join(",") over unquoted cells — the shape of the header row. -/
def rawRowText : List (List Char) → List Char
  | [] => []
  | [cell] => cell
  | cell :: cells => cell ++ ',' :: rawRowText cells

end CSVExport

namespace AuditSvc

/-- Reading a row back after the status UPDATE: the matching id carries the
new status and updatedAt, every other id is untouched. -/
theorem getReq_applyStatusWrite (st : ServiceState) (id k : Nat)
    (status : String) (now : Int) :
    getReq (applyStatusWrite st id status now).requests k
      = if k = id
        then (getReq st.requests k).map
          (fun r => { r with status := status, updatedAt := now })
        else getReq st.requests k := by
  unfold applyStatusWrite
  induction st.requests with
  | nil => simp [getReq]
  | cons p t ih =>
    obtain ⟨a, r0⟩ := p
    by_cases hai : a = id
    · subst hai
      by_cases hak : a = k
      · subst hak
        simp [getReq]
      · have hka : ¬ k = a := fun h => hak h.symm
        simp [getReq, hak, hka, ih]
    · by_cases hak : a = k
      · subst hak
        simp [getReq, hai]
      · by_cases hki : k = id
        · subst hki
          simp [getReq, hai, hak, ih]
        · simp [getReq, hai, hak, ih, hki]

/-- The status UPDATE touches no other table: the events log is unchanged. -/
theorem applyStatusWrite_events (st : ServiceState) (id : Nat)
    (status : String) (now : Int) :
    (applyStatusWrite st id status now).events = st.events := rfl

end AuditSvc

/-- C1 (amended): updateSignatureRequestStatus performs no transition
validation.  Even when the transition from the stored status to the target
status is outside the allowed set of §4.2, the operation reports success,
overwrites the stored status with the target, and appends one audit event —
it never returns an InvalidTransition error. -/
theorem c1_invalid_transitions_not_rejected
    (st : AuditSvc.ServiceState) (id : Nat) (r : AuditSvc.SigRequest)
    (status : String) (actorId : Option Nat) (details : Option String)
    (now : Int)
    (hreq : AuditSvc.getReq st.requests id = some r)
    (hbad : AuditSvc.allowedTransitionSpec r.status status = false) :
    (AuditSvc.updateSignatureRequestStatus st id status actorId details now).2
        = true
    ∧ AuditSvc.getReq
        (AuditSvc.updateSignatureRequestStatus st id status actorId details
          now).1.requests id
        = some { r with status := status, updatedAt := now }
    ∧ (AuditSvc.updateSignatureRequestStatus st id status actorId details
          now).1.events
        = st.events
          ++ [AuditSvc.statusUpdateEvent id status actorId details] := by
  refine ⟨rfl, ?_, rfl⟩
  show AuditSvc.getReq
    (AuditSvc.applyStatusWrite st id status now).requests id = _
  rw [AuditSvc.getReq_applyStatusWrite, if_pos rfl, hreq]
  rfl

/-- C1 (witness): a terminal request (status signed) driven through the
disallowed transition signed→sent. -/
theorem c1_witness :
    AuditSvc.getReq
      (AuditSvc.ServiceState.mk [(1, AuditSvc.SigRequest.mk "signed" (some 2) 2)]
        []).requests 1
      = some (AuditSvc.SigRequest.mk "signed" (some 2) 2)
    ∧ (AuditSvc.updateSignatureRequestStatus
        (AuditSvc.ServiceState.mk
          [(1, AuditSvc.SigRequest.mk "signed" (some 2) 2)] [])
        1 "sent" none none 5).2 = true := by
  refine ⟨by decide, ?_⟩
  exact (c1_invalid_transitions_not_rejected
    (AuditSvc.ServiceState.mk [(1, AuditSvc.SigRequest.mk "signed" (some 2) 2)] [])
    1 (AuditSvc.SigRequest.mk "signed" (some 2) 2) "sent" none none 5
    (by decide) (by decide)).1

/-- C1 (counterexample): on a request whose stored status is signed, the
disallowed transition signed→sent does not produce an InvalidTransition
error: the call reports success, the stored status becomes sent, and an
audit event is appended — contradicting the claim that the status and audit
trail are left unchanged. -/
theorem c1_counterexample :
    AuditSvc.allowedTransitionSpec "signed" "sent" = false
    ∧ (AuditSvc.updateSignatureRequestStatus
        (AuditSvc.ServiceState.mk
          [(1, AuditSvc.SigRequest.mk "signed" (some 2) 2)] [])
        1 "sent" none none 5)
      = (AuditSvc.ServiceState.mk
          [(1, AuditSvc.SigRequest.mk "sent" (some 2) 5)]
          [AuditSvc.SigEvent.mk 1 "signature_sent" none none], true) := by
  decide

/-- C2 (amended): the status write and the audit append are two separate
sequential writes with no enclosing transaction: the operation is exactly the
append performed after the status write, and the intermediate committed state
(the one that persists when the append fails) already carries the new status
while the audit trail is still unchanged.  On full success both take
effect. -/
theorem c2_nonatomic_status_write_precedes_append
    (st : AuditSvc.ServiceState) (id : Nat) (r : AuditSvc.SigRequest)
    (status : String) (actorId : Option Nat) (details : Option String)
    (now : Int)
    (hreq : AuditSvc.getReq st.requests id = some r) :
    AuditSvc.updateSignatureRequestStatus st id status actorId details now
      = (AuditSvc.logSignatureEvent (AuditSvc.applyStatusWrite st id status now)
          (AuditSvc.statusUpdateEvent id status actorId details), true)
    ∧ (AuditSvc.applyStatusWrite st id status now).events = st.events
    ∧ AuditSvc.getReq (AuditSvc.applyStatusWrite st id status now).requests id
        = some { r with status := status, updatedAt := now }
    ∧ (AuditSvc.updateSignatureRequestStatus st id status actorId details
          now).1.events
        = st.events
          ++ [AuditSvc.statusUpdateEvent id status actorId details] := by
  refine ⟨rfl, rfl, ?_, rfl⟩
  rw [AuditSvc.getReq_applyStatusWrite, if_pos rfl, hreq]
  rfl

/-- C2 (witness): the decomposition at a concrete one-request state. -/
theorem c2_witness :
    AuditSvc.getReq
      (AuditSvc.ServiceState.mk
        [(1, AuditSvc.SigRequest.mk "viewed" none 0)] []).requests 1
      = some (AuditSvc.SigRequest.mk "viewed" none 0)
    ∧ (AuditSvc.applyStatusWrite
        (AuditSvc.ServiceState.mk
          [(1, AuditSvc.SigRequest.mk "viewed" none 0)] [])
        1 "signed" 7).events = [] := by
  refine ⟨by decide, ?_⟩
  exact (c2_nonatomic_status_write_precedes_append
    (AuditSvc.ServiceState.mk [(1, AuditSvc.SigRequest.mk "viewed" none 0)] [])
    1 (AuditSvc.SigRequest.mk "viewed" none 0) "signed" none none 7
    (by decide)).2.1

/-- C2 (counterexample): after the first of the two writes — the state in
which execution halts when the audit append throws — the stored status has
already changed to signed while no audit event has been appended.  This is
exactly the state the claim says cannot exist. -/
theorem c2_counterexample :
    (AuditSvc.applyStatusWrite
      (AuditSvc.ServiceState.mk
        [(1, AuditSvc.SigRequest.mk "viewed" none 0)] [])
      1 "signed" 7)
    = AuditSvc.ServiceState.mk
        [(1, AuditSvc.SigRequest.mk "signed" none 7)] []
    ∧ AuditSvc.updateSignatureRequestStatus
        (AuditSvc.ServiceState.mk
          [(1, AuditSvc.SigRequest.mk "viewed" none 0)] [])
        1 "signed" none none 7
      = (AuditSvc.logSignatureEvent
          (AuditSvc.ServiceState.mk
            [(1, AuditSvc.SigRequest.mk "signed" none 7)] [])
          (AuditSvc.statusUpdateEvent 1 "signed" none none), true) := by
  decide

/-- C3 (code_bug evaluation): a request with no signedDate and a valid,
unexpired certificate.  The code stores timestampValid = 0 yet writes
ley81Compliant = 1 and returns true, while the claimed overall verdict (the
conjunction of the four component verdicts) is false. -/
theorem c3_overall_not_conjunction_eval :
    (Compliance.verifySignatureCompliance 1
      (Compliance.SigRequestRow.mk none "dochash")
      (Compliance.CertRow.mk "thumbprint" 1000 "valid") 0).1.ley81Compliant = 1
    ∧ (Compliance.verifySignatureCompliance 1
        (Compliance.SigRequestRow.mk none "dochash")
        (Compliance.CertRow.mk "thumbprint" 1000 "valid") 0).1.timestampValid = 0
    ∧ (Compliance.verifySignatureCompliance 1
        (Compliance.SigRequestRow.mk none "dochash")
        (Compliance.CertRow.mk "thumbprint" 1000 "valid") 0).2 = true
    ∧ Compliance.claimOverallCompliant
        (Compliance.SigRequestRow.mk none "dochash")
        (Compliance.CertRow.mk "thumbprint" 1000 "valid") 0 = false := by
  decide

/-- C4 (code_bug evaluation): driving a pending request to status sent
appends exactly one event whose eventType is the template string
signature_sent — not the enumeration member request_sent the transition
corresponds to — and signature_sent lies outside the closed eventType
enumeration of the signatureEvents schema, yet the service appends it with
no boundary check. -/
theorem c4_generated_event_type_outside_enumeration :
    (AuditSvc.updateSignatureRequestStatus
      (AuditSvc.ServiceState.mk
        [(1, AuditSvc.SigRequest.mk "pending" none 0)] [])
      1 "sent" none none 3).1.events
      = [AuditSvc.SigEvent.mk 1 "signature_sent" none none]
    ∧ "signature_sent" ∉ AuditSvc.eventTypeEnum
    ∧ "request_sent" ∈ AuditSvc.eventTypeEnum
    ∧ (AuditSvc.updateSignatureRequestStatus
        (AuditSvc.ServiceState.mk
          [(1, AuditSvc.SigRequest.mk "pending" none 0)] [])
        1 "sent" none none 3).2 = true := by
  decide

/-- C7 (amended): compliancePercentage is nonnegative, is exactly 0 when the
window holds no requests (no division error), and is at most 100 whenever the
compliant-record count does not exceed the request count; the unconditional
upper bound of the claim fails because the numerator counts compliance
records in the window while the denominator counts requests. -/
theorem c7_percentage_bounds (allRequests : List Report.ReqRow)
    (allRecords : List Report.CompRow) (startDate endDate : Int) :
    0 ≤ (Report.generateComplianceReport allRequests allRecords startDate
          endDate).compliancePercentage
    ∧ ((Report.generateComplianceReport allRequests allRecords startDate
          endDate).totalRequests = 0 →
        (Report.generateComplianceReport allRequests allRecords startDate
          endDate).compliancePercentage = 0)
    ∧ ((Report.generateComplianceReport allRequests allRecords startDate
          endDate).ley81CompliantCount
        ≤ (Report.generateComplianceReport allRequests allRecords startDate
          endDate).totalRequests →
        (Report.generateComplianceReport allRequests allRecords startDate
          endDate).compliancePercentage ≤ 100) := by
  simp only [Report.generateComplianceReport]
  set total := (allRequests.filter
    (fun r => startDate ≤ r.createdAt ∧ r.createdAt ≤ endDate)).length with htotal
  set compliant := ((allRecords.filter
    (fun r => startDate ≤ r.createdAt ∧ r.createdAt ≤ endDate)).filter
      (fun r => r.ley81Compliant = 1)).length with hcompliant
  by_cases hpos : 0 < total
  · refine ⟨?_, ?_, ?_⟩
    · simp only [if_pos hpos]
      positivity
    · intro h
      omega
    · intro h
      simp only [if_pos hpos]
      have htQ : (0 : ℚ) < (total : ℚ) := by exact_mod_cast hpos
      have hle : (compliant : ℚ) / (total : ℚ) ≤ 1 := by
        rw [div_le_one htQ]
        exact_mod_cast h
      calc (compliant : ℚ) / (total : ℚ) * 100 ≤ 1 * 100 := by
            exact mul_le_mul_of_nonneg_right hle (by norm_num)
        _ = 100 := by norm_num
  · refine ⟨?_, ?_, ?_⟩ <;> simp only [if_neg hpos] <;> intros <;> norm_num

/-- C7 (witness): the bounds at an empty window. -/
theorem c7_witness :
    (Report.generateComplianceReport [] [] 0 0).compliancePercentage = 0 :=
  (c7_percentage_bounds [] [] 0 0).2.1 rfl

/-- C7 (counterexample): a window holding one request and two compliant
compliance records yields compliancePercentage = 200, outside [0,100]. -/
theorem c7_counterexample :
    (Report.generateComplianceReport
      [Report.ReqRow.mk "pending" none 5]
      [Report.CompRow.mk 1 5, Report.CompRow.mk 1 5]
      0 10).compliancePercentage = 200
    ∧ ¬ (Report.generateComplianceReport
      [Report.ReqRow.mk "pending" none 5]
      [Report.CompRow.mk 1 5, Report.CompRow.mk 1 5]
      0 10).compliancePercentage ≤ 100 := by
  refine ⟨?_, ?_⟩ <;> norm_num [Report.generateComplianceReport, List.filter]

namespace Notifier

theorem mget_map_replace {α β : Type} [DecidableEq α] (m : List (α × β))
    (k k' : α) (v : β) (hne : ¬ k' = k) :
    mget (m.map (fun p => if p.1 = k then (k, v) else p)) k' = mget m k' := by
  induction m with
  | nil => rfl
  | cons q t ih =>
    by_cases hq : q.1 = k
    · have hkk' : ¬ k = k' := fun hh => hne hh.symm
      have hqk' : ¬ q.1 = k' := by rw [hq]; exact hkk'
      simp [mget, hq, hkk', hqk', ih]
    · by_cases hq' : q.1 = k' <;> simp [mget, hq, hq', hne, ih]

theorem mget_map_replace_self {α β : Type} [DecidableEq α] (m : List (α × β))
    (k : α) (v : β) (hmem : ∃ p ∈ m, p.1 = k) :
    mget (m.map (fun p => if p.1 = k then (k, v) else p)) k = some v := by
  induction m with
  | nil => simp at hmem
  | cons q t ih =>
    by_cases hq : q.1 = k
    · simp [mget, hq]
    · obtain ⟨p, hp, hpk⟩ := hmem
      cases hp with
      | head => exact absurd hpk hq
      | tail _ hp' => simp [mget, hq, ih ⟨p, hp', hpk⟩]

theorem mget_append_single {α β : Type} [DecidableEq α] (m : List (α × β))
    (k k' : α) (v : β) :
    mget (m ++ [(k, v)]) k' = if k = k' then (mget m k').getD v |> some
      else mget m k' := by
  induction m with
  | nil => by_cases hk : k = k' <;> simp [mget, hk]
  | cons q t ih =>
    by_cases hk : k = k'
    · subst hk
      by_cases hq : q.1 = k <;> simp [mget, hq, ih]
    · by_cases hq : q.1 = k' <;> simp [mget, hq, hk, ih]

theorem mget_eq_none_of_forall {α β : Type} [DecidableEq α] :
    ∀ (m : List (α × β)) (k : α), (∀ p ∈ m, ¬ p.1 = k) → mget m k = none
  | [], _, _ => rfl
  | q :: t, k, hall => by
    have hq : ¬ q.1 = k := hall q (List.mem_cons_self q t)
    simp only [mget, if_neg hq]
    exact mget_eq_none_of_forall t k
      (fun p hp => hall p (List.mem_cons_of_mem q hp))

theorem mget_mset_self {α β : Type} [DecidableEq α] (m : List (α × β))
    (k : α) (v : β) : mget (mset m k v) k = some v := by
  unfold mset
  by_cases h : m.any (fun p => p.1 = k)
  · rw [if_pos h]
    rw [List.any_eq_true] at h
    obtain ⟨p, hp, hpk⟩ := h
    simp only [decide_eq_true_eq] at hpk
    exact mget_map_replace_self m k v ⟨p, hp, hpk⟩
  · rw [if_neg h]
    have hall : ∀ p ∈ m, ¬ p.1 = k := by
      intro p hp hpk
      exact h (List.any_eq_true.mpr ⟨p, hp, by simpa using hpk⟩)
    rw [mget_append_single, if_pos rfl, mget_eq_none_of_forall m k hall]
    rfl

theorem mget_mset_ne {α β : Type} [DecidableEq α] (m : List (α × β))
    (k k' : α) (v : β) (hne : ¬ k' = k) :
    mget (mset m k v) k' = mget m k' := by
  unfold mset
  by_cases h : m.any (fun p => p.1 = k)
  · rw [if_pos h]
    exact mget_map_replace m k k' v hne
  · rw [if_neg h, mget_append_single, if_neg (fun hh => hne hh.symm)]

theorem mdel_cons {α β : Type} [DecidableEq α] (q : α × β)
    (t : List (α × β)) (k : α) :
    mdel (q :: t) k = if q.1 = k then mdel t k else q :: mdel t k := by
  unfold mdel
  by_cases h : q.1 = k <;> simp [List.filter_cons, h]

theorem mget_mdel_self {α β : Type} [DecidableEq α] (m : List (α × β))
    (k : α) : mget (mdel m k) k = none := by
  induction m with
  | nil => rfl
  | cons q t ih =>
    rw [mdel_cons]
    by_cases hq : q.1 = k
    · rwa [if_pos hq]
    · rw [if_neg hq]
      simpa [mget, hq] using ih

theorem mget_mdel_ne {α β : Type} [DecidableEq α] (m : List (α × β))
    (k k' : α) (hne : ¬ k' = k) :
    mget (mdel m k) k' = mget m k' := by
  induction m with
  | nil => rfl
  | cons q t ih =>
    rw [mdel_cons]
    by_cases hq : q.1 = k
    · have hqk' : ¬ q.1 = k' := by rw [hq]; exact fun hh => hne hh.symm
      rw [if_pos hq, ih]
      simp [mget, hqk']
    · rw [if_neg hq]
      by_cases hq' : q.1 = k' <;> simp [mget, hq', ih]

theorem mget_mem {α β : Type} [DecidableEq α] {m : List (α × β)}
    {k : α} {v : β} (h : mget m k = some v) : (k, v) ∈ m := by
  induction m with
  | nil => cases h
  | cons q t ih =>
    by_cases hq : q.1 = k
    · simp only [mget, if_pos hq] at h
      obtain ⟨a, b⟩ := q
      cases h
      cases hq
      exact List.mem_cons_self _ _
    · simp only [mget, if_neg hq] at h
      exact List.mem_cons_of_mem q (ih h)

theorem mem_mget_isSome {α β : Type} [DecidableEq α] {m : List (α × β)}
    {k : α} {v : β} (h : (k, v) ∈ m) : (mget m k).isSome := by
  induction m with
  | nil => cases h
  | cons q t ih =>
    by_cases hq : q.1 = k
    · simp [mget, hq]
    · cases h with
      | head => exact absurd rfl hq
      | tail _ h' => simpa [mget, hq] using ih h'

theorem mem_mget_nodup {α β : Type} [DecidableEq α] {m : List (α × β)}
    {k : α} {v : β} (h : (k, v) ∈ m)
    (hnd : (m.map Prod.fst).Nodup) : mget m k = some v := by
  induction m with
  | nil => cases h
  | cons q t ih =>
    rw [List.map_cons, List.nodup_cons] at hnd
    cases h with
    | head => simp [mget]
    | tail _ h' =>
      have hq : ¬ q.1 = k := by
        intro hk
        exact hnd.1 (hk ▸ (List.mem_map.mpr ⟨(k, v), h', rfl⟩))
      simp only [mget, if_neg hq]
      exact ih h' hnd.2

theorem mem_mset {α β : Type} [DecidableEq α] {m : List (α × β)}
    {k : α} {v : β} {p : α × β} (h : p ∈ mset m k v) :
    p = (k, v) ∨ (p ∈ m ∧ ¬ p.1 = k) := by
  unfold mset at h
  by_cases hany : m.any (fun q => q.1 = k)
  · rw [if_pos hany] at h
    rw [List.mem_map] at h
    obtain ⟨q, hq, hqe⟩ := h
    by_cases hqk : q.1 = k
    · left
      rw [if_pos hqk] at hqe
      exact hqe.symm
    · right
      rw [if_neg hqk] at hqe
      exact ⟨hqe ▸ hq, hqe ▸ hqk⟩
  · rw [if_neg hany] at h
    rw [List.mem_append] at h
    cases h with
    | inr h' => left; simpa using h'
    | inl h' =>
      right
      refine ⟨h', ?_⟩
      intro hpk
      exact hany (List.any_eq_true.mpr ⟨p, h', by simpa using hpk⟩)

theorem nodup_keys_mset {α β : Type} [DecidableEq α] {m : List (α × β)}
    (k : α) (v : β) (hnd : (m.map Prod.fst).Nodup) :
    ((mset m k v).map Prod.fst).Nodup := by
  unfold mset
  by_cases hany : m.any (fun q => q.1 = k)
  · rw [if_pos hany, List.map_map]
    have heq : (m.map (Prod.fst ∘ fun p => if p.1 = k then (k, v) else p))
        = m.map Prod.fst := by
      apply List.map_congr_left
      intro p _
      by_cases hp : p.1 = k <;> simp [hp]
    rw [heq]
    exact hnd
  · rw [if_neg hany, List.map_append]
    rw [List.nodup_append]
    refine ⟨hnd, List.nodup_singleton _, ?_⟩
    intro a ha hb
    simp only [List.map_cons, List.map_nil, List.mem_singleton] at hb
    subst hb
    rw [List.mem_map] at ha
    obtain ⟨p, hp, hpk⟩ := ha
    exact hany (List.any_eq_true.mpr ⟨p, hp, by simpa using hpk⟩)

theorem nodup_keys_mdel {α β : Type} [DecidableEq α] {m : List (α × β)}
    (k : α) (hnd : (m.map Prod.fst).Nodup) :
    ((mdel m k).map Prod.fst).Nodup := by
  unfold mdel
  exact List.Nodup.sublist (List.Sublist.map Prod.fst (List.filter_sublist m)) hnd

theorem mem_sadd {l : List String} {x y : String} (h : x ∈ sadd l y) :
    x ∈ l ∨ x = y := by
  unfold sadd at h
  by_cases hy : y ∈ l
  · rw [if_pos hy] at h
    exact Or.inl h
  · rw [if_neg hy, List.mem_append] at h
    cases h with
    | inl h' => exact Or.inl h'
    | inr h' => exact Or.inr (by simpa using h')

theorem self_mem_sadd (l : List String) (x : String) : x ∈ sadd l x := by
  unfold sadd
  by_cases hx : x ∈ l
  · rwa [if_pos hx]
  · rw [if_neg hx]
    simp

theorem mem_sadd_of_mem {l : List String} {x : String} (y : String)
    (h : x ∈ l) : x ∈ sadd l y := by
  unfold sadd
  by_cases hy : y ∈ l
  · rwa [if_pos hy]
  · rw [if_neg hy]
    exact List.mem_append_left _ h

theorem sadd_ne_nil (l : List String) (x : String) : sadd l x ≠ [] := by
  unfold sadd
  by_cases hx : x ∈ l
  · rw [if_pos hx]
    intro hnil
    rw [hnil] at hx
    cases hx
  · rw [if_neg hx]
    simp

theorem mem_serase {l : List String} {x y : String} :
    x ∈ serase l y ↔ x ∈ l ∧ ¬ x = y := by
  unfold serase
  simp

end Notifier

namespace Notifier

theorem mem_mdel {α β : Type} [DecidableEq α] {m : List (α × β)} {k : α}
    {p : α × β} : p ∈ mdel m k ↔ p ∈ m ∧ ¬ p.1 = k := by
  simp [mdel, List.mem_filter]

theorem registerConnection_adminConnections (st : NotifierState)
    (cid : String) (u : UserPayload) (now : Int) :
    (registerConnection st cid u now).adminConnections
      = mset st.adminConnections cid
          (AdminConnection.mk u.id u.email u.role now now 1 none) := rfl

theorem invariant_register (st : NotifierState) (cid : String)
    (u : UserPayload) (now : Int) (hInv : Invariant st)
    (hfresh : mget st.adminConnections cid = none) :
    Invariant (registerConnection st cid u now) := by
  obtain ⟨hnd1, hnd2, h3, h4⟩ := hInv
  have hfresh' : ∀ v : AdminConnection, (cid, v) ∉ st.adminConnections := by
    intro v hmem
    have hs := mem_mget_isSome hmem
    rw [hfresh] at hs
    cases hs
  rcases hby : mget st.connectionsByUserId u.id with _ | s
  all_goals
    refine ⟨?_, ?_, ?_, ?_⟩
  -- none case: connectionsByUserId gets a fresh singleton set
  · simpa [registerConnection] using nodup_keys_mset cid _ hnd1
  · simp only [registerConnection, hby]
    exact nodup_keys_mset u.id _ hnd2
  · intro p hp
    rw [registerConnection_adminConnections] at hp
    simp only [registerConnection, hby]
    rcases mem_mset hp with hpe | ⟨hpm, hpne⟩
    · subst hpe
      exact ⟨[cid], mget_mset_self _ _ _, List.mem_singleton_self cid⟩
    · obtain ⟨l, hl, hpl⟩ := h3 p hpm
      by_cases huid : p.2.userId = u.id
      · rw [huid, hby] at hl
        cases hl
      · exact ⟨l, by rw [mget_mset_ne _ _ _ _ huid]; exact hl, hpl⟩
  · intro q hq
    simp only [registerConnection, hby] at hq
    rw [registerConnection_adminConnections]
    rcases mem_mset hq with hqe | ⟨hqm, hqne⟩
    · subst hqe
      refine ⟨List.cons_ne_nil _ _, ?_⟩
      intro cid' hcid'
      rw [List.mem_singleton] at hcid'
      subst hcid'
      exact ⟨_, mget_mset_self _ _ _, rfl⟩
    · obtain ⟨hne, hall⟩ := h4 q hqm
      refine ⟨hne, ?_⟩
      intro cid' hcid'
      obtain ⟨c, hc, hcu⟩ := hall cid' hcid'
      have hcidne : ¬ cid' = cid := by
        intro he
        rw [he, hfresh] at hc
        cases hc
      exact ⟨c, by rw [mget_mset_ne _ _ _ _ hcidne]; exact hc, hcu⟩
  -- some case: the user's existing set gains the connectionId
  · simpa [registerConnection] using nodup_keys_mset cid _ hnd1
  · simp only [registerConnection, hby]
    exact nodup_keys_mset u.id _ hnd2
  · intro p hp
    rw [registerConnection_adminConnections] at hp
    simp only [registerConnection, hby]
    rcases mem_mset hp with hpe | ⟨hpm, hpne⟩
    · subst hpe
      exact ⟨sadd s cid, mget_mset_self _ _ _, self_mem_sadd s cid⟩
    · obtain ⟨l, hl, hpl⟩ := h3 p hpm
      by_cases huid : p.2.userId = u.id
      · rw [huid, hby] at hl
        injection hl with hls
        subst hls
        exact ⟨sadd s cid, by rw [huid]; exact mget_mset_self _ _ _,
          mem_sadd_of_mem cid hpl⟩
      · exact ⟨l, by rw [mget_mset_ne _ _ _ _ huid]; exact hl, hpl⟩
  · intro q hq
    simp only [registerConnection, hby] at hq
    rw [registerConnection_adminConnections]
    rcases mem_mset hq with hqe | ⟨hqm, hqne⟩
    · subst hqe
      refine ⟨sadd_ne_nil s cid, ?_⟩
      intro cid' hcid'
      rcases mem_sadd hcid' with hin | he
      · obtain ⟨hne0, hall⟩ := h4 (u.id, s) (mget_mem hby)
        obtain ⟨c, hc, hcu⟩ := hall cid' hin
        have hcidne : ¬ cid' = cid := by
          intro he'
          rw [he', hfresh] at hc
          cases hc
        exact ⟨c, by rw [mget_mset_ne _ _ _ _ hcidne]; exact hc, hcu⟩
      · subst he
        exact ⟨_, mget_mset_self _ _ _, rfl⟩
    · obtain ⟨hne, hall⟩ := h4 q hqm
      refine ⟨hne, ?_⟩
      intro cid' hcid'
      obtain ⟨c, hc, hcu⟩ := hall cid' hcid'
      have hcidne : ¬ cid' = cid := by
        intro he
        rw [he, hfresh] at hc
        cases hc
      exact ⟨c, by rw [mget_mset_ne _ _ _ _ hcidne]; exact hc, hcu⟩

end Notifier

namespace Notifier

theorem invariant_close (st : NotifierState) (cid : String)
    (hInv : Invariant st) : Invariant (handleWebSocketClose st cid) := by
  obtain ⟨hnd1, hnd2, h3, h4⟩ := hInv
  rcases hc : mget st.adminConnections cid with _ | connection
  · simpa only [handleWebSocketClose, hc] using ⟨hnd1, hnd2, h3, h4⟩
  · rcases hbu : mget st.connectionsByUserId connection.userId
      with _ | userConnections
    · -- impossible under the invariant: the closed connection is indexed
      obtain ⟨l, hl, _⟩ := h3 (cid, connection) (mget_mem hc)
      rw [hbu] at hl
      cases hl
    · by_cases hrem : serase userConnections cid = []
      · -- the user's set becomes empty and the user entry is dropped
        have hres : handleWebSocketClose st cid =
            NotifierState.mk (mdel st.adminConnections cid)
              (mdel st.connectionsByUserId connection.userId) := by
          simp only [handleWebSocketClose, hc, hbu, hrem, if_pos]
        rw [hres]
        refine ⟨nodup_keys_mdel cid hnd1, nodup_keys_mdel _ hnd2, ?_, ?_⟩
        · intro p hp
          rcases mem_mdel.mp hp with ⟨hpm, hpne⟩
          obtain ⟨l, hl, hpl⟩ := h3 p hpm
          by_cases huid : p.2.userId = connection.userId
          · rw [huid, hbu] at hl
            injection hl with hls
            subst hls
            have : p.1 ∈ serase userConnections cid :=
              mem_serase.mpr ⟨hpl, hpne⟩
            rw [hrem] at this
            cases this
          · exact ⟨l, by rw [mget_mdel_ne _ _ _ huid]; exact hl, hpl⟩
        · intro q hq
          rcases mem_mdel.mp hq with ⟨hqm, hqne⟩
          obtain ⟨hne, hall⟩ := h4 q hqm
          refine ⟨hne, ?_⟩
          intro cid' hcid'
          obtain ⟨c, hc', hcu⟩ := hall cid' hcid'
          have hcidne : ¬ cid' = cid := by
            intro he
            rw [he, hc] at hc'
            injection hc' with hcc
            subst hcc
            exact hqne (hcu ▸ rfl)
          exact ⟨c, by rw [mget_mdel_ne _ _ _ hcidne]; exact hc', hcu⟩
      · -- the user's set shrinks but stays non-empty
        have hres : handleWebSocketClose st cid =
            NotifierState.mk (mdel st.adminConnections cid)
              (mset st.connectionsByUserId connection.userId
                (serase userConnections cid)) := by
          simp only [handleWebSocketClose, hc, hbu, hrem, if_neg,
            not_false_iff]
        rw [hres]
        refine ⟨nodup_keys_mdel cid hnd1, nodup_keys_mset _ _ hnd2, ?_, ?_⟩
        · intro p hp
          rcases mem_mdel.mp hp with ⟨hpm, hpne⟩
          obtain ⟨l, hl, hpl⟩ := h3 p hpm
          by_cases huid : p.2.userId = connection.userId
          · rw [huid, hbu] at hl
            injection hl with hls
            subst hls
            exact ⟨serase userConnections cid,
              by rw [huid]; exact mget_mset_self _ _ _,
              mem_serase.mpr ⟨hpl, hpne⟩⟩
          · exact ⟨l, by rw [mget_mset_ne _ _ _ _ huid]; exact hl, hpl⟩
        · intro q hq
          rcases mem_mset hq with hqe | ⟨hqm, hqne⟩
          · subst hqe
            refine ⟨hrem, ?_⟩
            intro cid' hcid'
            rcases mem_serase.mp hcid' with ⟨hin, hcidne⟩
            obtain ⟨hne0, hall⟩ := h4 (connection.userId, userConnections)
              (mget_mem hbu)
            obtain ⟨c, hc', hcu⟩ := hall cid' hin
            exact ⟨c, by rw [mget_mdel_ne _ _ _ hcidne]; exact hc', hcu⟩
          · obtain ⟨hne, hall⟩ := h4 q hqm
            refine ⟨hne, ?_⟩
            intro cid' hcid'
            obtain ⟨c, hc', hcu⟩ := hall cid' hcid'
            have hcidne : ¬ cid' = cid := by
              intro he
              rw [he, hc] at hc'
              injection hc' with hcc
              subst hcc
              exact hqne (hcu ▸ rfl)
            exact ⟨c, by rw [mget_mdel_ne _ _ _ hcidne]; exact hc', hcu⟩

theorem invariant_foldl_close (l : List (String × AdminConnection)) :
    ∀ st : NotifierState, Invariant st →
    Invariant (l.foldl (fun s p => handleWebSocketClose s p.1) st) := by
  induction l with
  | nil => intro st hInv; exact hInv
  | cons q t ih =>
    intro st hInv
    exact ih (handleWebSocketClose st q.1) (invariant_close st q.1 hInv)

theorem invariant_checkHeartbeats (st : NotifierState) (now : Int)
    (hInv : Invariant st) : Invariant (checkHeartbeats st now) :=
  invariant_foldl_close _ st hInv

theorem invariant_closeAll (st : NotifierState) :
    Invariant (closeAllConnections st) := by
  refine ⟨List.nodup_nil, List.nodup_nil, ?_, ?_⟩ <;>
    intro q hq <;> cases hq

end Notifier

namespace Notifier

theorem mget_close (st : NotifierState) (x cid : String) :
    mget (handleWebSocketClose st x).adminConnections cid
      = if cid = x then none else mget st.adminConnections cid := by
  rcases hx : mget st.adminConnections x with _ | conn
  · simp only [handleWebSocketClose, hx]
    by_cases hcx : cid = x
    · rw [if_pos hcx, hcx, hx]
    · rw [if_neg hcx]
  · have hadm : (handleWebSocketClose st x).adminConnections
        = mdel st.adminConnections x := by
      simp only [handleWebSocketClose, hx]
    rw [hadm]
    by_cases hcx : cid = x
    · rw [if_pos hcx, hcx]
      exact mget_mdel_self _ _
    · rw [if_neg hcx]
      exact mget_mdel_ne _ _ _ hcx

theorem mget_foldl_close_none (l : List (String × AdminConnection)) :
    ∀ (st : NotifierState) (cid : String),
    ((∃ p ∈ l, p.1 = cid) ∨ mget st.adminConnections cid = none) →
    mget ((l.foldl (fun s p => handleWebSocketClose s p.1) st)).adminConnections
      cid = none := by
  induction l with
  | nil =>
    intro st cid h
    rcases h with ⟨p, hp, _⟩ | hnone
    · cases hp
    · exact hnone
  | cons q t ih =>
    intro st cid h
    apply ih
    rcases h with ⟨p, hp, hpc⟩ | hnone
    · cases hp with
      | head =>
        right
        rw [mget_close, if_pos hpc.symm]
      | tail _ hp' => exact Or.inl ⟨p, hp', hpc⟩
    · right
      rw [mget_close]
      by_cases hcx : cid = q.1
      · rw [if_pos hcx]
      · rw [if_neg hcx]
        exact hnone

theorem exists_of_mem_broadcast {st : NotifierState} {cid eventType : String}
    (h : cid ∈ broadcastNotification st eventType) :
    ∃ c, (cid, c) ∈ st.adminConnections ∧ deliversTo c eventType = true := by
  unfold broadcastNotification at h
  rw [List.mem_map] at h
  obtain ⟨p, hp, hfst⟩ := h
  rw [List.mem_filter] at hp
  exact ⟨p.2, by rw [← hfst]; exact hp.1, hp.2⟩

theorem mem_broadcast_of_delivers {st : NotifierState}
    {cid eventType : String} {c : AdminConnection}
    (hmem : (cid, c) ∈ st.adminConnections)
    (hdel : deliversTo c eventType = true) :
    cid ∈ broadcastNotification st eventType := by
  unfold broadcastNotification
  rw [List.mem_map]
  exact ⟨(cid, c), List.mem_filter.mpr ⟨hmem, hdel⟩, rfl⟩

theorem deliversTo_iff (c : AdminConnection) (eventType : String) :
    deliversTo c eventType = true
      ↔ (c.readyState = 1
        ∧ (c.subscriptions = none
          ∨ ∃ subs, c.subscriptions = some subs ∧ eventType ∈ subs)) := by
  rcases hs : c.subscriptions with _ | subs <;>
    simp [deliversTo, hs] <;>
    tauto

end Notifier

/-- C5 (amended): under unique registry keys, a registered connection is
delivered a broadcast event exactly when its socket is open and either its
subscriptions set was never created (no subscribe message ever arrived — the
code's only "receive everything" case) or the set exists and contains the
event's type.  In particular a connection with a non-empty set never receives
an event outside the set, and a connection whose set exists but is empty
(subscribed then unsubscribed) receives nothing — not everything, as the
claim reads. -/
theorem c5_subscription_filtering (st : Notifier.NotifierState)
    (cid eventType : String) (c : Notifier.AdminConnection)
    (hnd : (st.adminConnections.map Prod.fst).Nodup)
    (hc : Notifier.mget st.adminConnections cid = some c) :
    cid ∈ Notifier.broadcastNotification st eventType
      ↔ (c.readyState = 1
        ∧ (c.subscriptions = none
          ∨ ∃ subs, c.subscriptions = some subs ∧ eventType ∈ subs)) := by
  rw [← Notifier.deliversTo_iff]
  constructor
  · intro h
    obtain ⟨c', hmem, hdel⟩ := Notifier.exists_of_mem_broadcast h
    have := Notifier.mem_mget_nodup hmem hnd
    rw [hc] at this
    injection this with hcc
    rwa [hcc]
  · intro hdel
    exact Notifier.mem_broadcast_of_delivers (Notifier.mget_mem hc) hdel

/-- C5 (witness): a connection subscribed exactly to signature_completed
receives a signature_completed broadcast. -/
theorem c5_witness :
    "c1" ∈ Notifier.broadcastNotification
      (Notifier.NotifierState.mk
        [("c1", Notifier.AdminConnection.mk 7 "a@x" "admin" 0 0 1
          (some ["signature_completed"]))]
        [(7, ["c1"])])
      "signature_completed" :=
  (c5_subscription_filtering _ "c1" "signature_completed"
    (Notifier.AdminConnection.mk 7 "a@x" "admin" 0 0 1
      (some ["signature_completed"]))
    (by decide) (by decide)).mpr
    ⟨rfl, Or.inr ⟨["signature_completed"], rfl, by decide⟩⟩

/-- C5 (counterexample): a connection that subscribes to signature_completed
and then unsubscribes is left with a present-but-empty subscriptions set; a
subsequent signature_completed (or any other) broadcast is delivered to no
one, contradicting the claim that an empty subscription set receives every
broadcast event. -/
theorem c5_counterexample :
    (Notifier.mget
      (Notifier.handleWebSocketMessage
        (Notifier.handleWebSocketMessage
          (Notifier.handleWebSocketConnection
            (Notifier.NotifierState.mk [] [])
            (Notifier.Credential.valid (Notifier.UserPayload.mk 7 "a@x" "admin"))
            "c1" 0).1
          "c1" (Notifier.ClientMessage.subscribeToEvents "signature_completed") 1)
        "c1" (Notifier.ClientMessage.unsubscribeFromEvents "signature_completed")
        2).adminConnections "c1").map
        (fun c => c.subscriptions) = some (some [])
    ∧ Notifier.broadcastNotification
      (Notifier.handleWebSocketMessage
        (Notifier.handleWebSocketMessage
          (Notifier.handleWebSocketConnection
            (Notifier.NotifierState.mk [] [])
            (Notifier.Credential.valid (Notifier.UserPayload.mk 7 "a@x" "admin"))
            "c1" 0).1
          "c1" (Notifier.ClientMessage.subscribeToEvents "signature_completed") 1)
        "c1" (Notifier.ClientMessage.unsubscribeFromEvents "signature_completed")
        2)
      "signature_completed" = [] := by
  decide

/-- C8: a connection is registered only when the presented credential is a
verified payload asserting role admin; for a missing token, a failed
verification, or any other role the socket is closed and both registries are
left exactly as they were (no partial registration).  On the admin path the
connection lands in the registry and in the per-user index. -/
theorem c8_connect_auth_gate (st : Notifier.NotifierState)
    (cred : Notifier.Credential) (freshId : String) (now : Int) :
    ((∀ u, cred = Notifier.Credential.valid u → ¬ u.role = "admin") →
      (Notifier.handleWebSocketConnection st cred freshId now).1 = st
      ∧ ∃ code reason,
        (Notifier.handleWebSocketConnection st cred freshId now).2
          = Notifier.ConnectOutcome.closed code reason)
    ∧ (∀ u, cred = Notifier.Credential.valid u → u.role = "admin" →
      (Notifier.handleWebSocketConnection st cred freshId now).1
        = Notifier.registerConnection st freshId u now
      ∧ Notifier.mget
          (Notifier.handleWebSocketConnection st cred freshId now).1.adminConnections
          freshId
        = some (Notifier.AdminConnection.mk u.id u.email u.role now now 1 none)
      ∧ ∃ l, Notifier.mget
          (Notifier.handleWebSocketConnection st cred freshId
            now).1.connectionsByUserId u.id = some l ∧ freshId ∈ l) := by
  cases cred with
  | missing =>
    refine ⟨fun _ => ⟨rfl, 1008, "Missing authentication token", rfl⟩, ?_⟩
    intro u hu
    cases hu
  | invalid =>
    refine ⟨fun _ => ⟨rfl, 1008, "Invalid authentication token", rfl⟩, ?_⟩
    intro u hu
    cases hu
  | valid u =>
    by_cases hrole : u.role = "admin"
    · constructor
      · intro h
        exact absurd hrole (h u rfl)
      · intro u' hu' _
        injection hu' with huu
        subst huu
        have hres : (Notifier.handleWebSocketConnection st
            (Notifier.Credential.valid u) freshId now).1
            = Notifier.registerConnection st freshId u now := by
          simp [Notifier.handleWebSocketConnection, hrole]
        refine ⟨hres, ?_, ?_⟩
        · rw [hres, Notifier.registerConnection_adminConnections]
          exact Notifier.mget_mset_self _ _ _
        · rw [hres]
          rcases hby : Notifier.mget st.connectionsByUserId u.id with _ | s
          · refine ⟨[freshId], ?_, List.mem_singleton_self freshId⟩
            simp only [Notifier.registerConnection, hby]
            exact Notifier.mget_mset_self _ _ _
          · refine ⟨Notifier.sadd s freshId, ?_,
              Notifier.self_mem_sadd s freshId⟩
            simp only [Notifier.registerConnection, hby]
            exact Notifier.mget_mset_self _ _ _
    · constructor
      · intro _
        have hres : Notifier.handleWebSocketConnection st
            (Notifier.Credential.valid u) freshId now
            = (st, Notifier.ConnectOutcome.closed 1008 "Admin access required") := by
          simp [Notifier.handleWebSocketConnection, hrole]
        rw [hres]
        exact ⟨rfl, 1008, "Admin access required", rfl⟩
      · intro u' hu' hrole'
        injection hu' with huu
        subst huu
        exact absurd hrole' hrole

/-- C8 (witness): a missing token leaves the empty state untouched, and an
admin credential lands in the registry. -/
theorem c8_witness :
    (Notifier.handleWebSocketConnection (Notifier.NotifierState.mk [] [])
      Notifier.Credential.missing "c1" 0).1 = Notifier.NotifierState.mk [] []
    ∧ Notifier.mget
        (Notifier.handleWebSocketConnection (Notifier.NotifierState.mk [] [])
          (Notifier.Credential.valid (Notifier.UserPayload.mk 7 "a@x" "admin"))
          "c1" 0).1.adminConnections "c1"
      = some (Notifier.AdminConnection.mk 7 "a@x" "admin" 0 0 1 none) :=
  ⟨((c8_connect_auth_gate (Notifier.NotifierState.mk [] [])
      Notifier.Credential.missing "c1" 0).1
      (fun u hu => by cases hu)).1,
   ((c8_connect_auth_gate (Notifier.NotifierState.mk [] [])
      (Notifier.Credential.valid (Notifier.UserPayload.mk 7 "a@x" "admin"))
      "c1" 0).2
      (Notifier.UserPayload.mk 7 "a@x" "admin") rfl rfl).2.1⟩

/-- C9: in a consistent state, a connection whose time since last heartbeat
exceeds the 90-second staleness threshold is removed by the next heartbeat
sweep from the registry and from the per-user index, and a broadcast sent
after the sweep delivers nothing to it. -/
theorem c9_stale_connection_reaped (st : Notifier.NotifierState) (now : Int)
    (cid : String) (c : Notifier.AdminConnection) (eventType : String)
    (hInv : Notifier.Invariant st)
    (hc : Notifier.mget st.adminConnections cid = some c)
    (hstale : Notifier.staleThreshold < now - c.lastHeartbeat) :
    Notifier.mget (Notifier.checkHeartbeats st now).adminConnections cid = none
    ∧ (∀ uid l, Notifier.mget
        (Notifier.checkHeartbeats st now).connectionsByUserId uid = some l →
        cid ∉ l)
    ∧ cid ∉ Notifier.broadcastNotification (Notifier.checkHeartbeats st now)
        eventType := by
  have hgone : Notifier.mget
      (Notifier.checkHeartbeats st now).adminConnections cid = none := by
    unfold Notifier.checkHeartbeats
    apply Notifier.mget_foldl_close_none
    left
    refine ⟨(cid, c), ?_, rfl⟩
    rw [List.mem_filter]
    exact ⟨Notifier.mget_mem hc, by simpa using hstale⟩
  refine ⟨hgone, ?_, ?_⟩
  · intro uid l hl hmem
    have hInv' := Notifier.invariant_checkHeartbeats st now hInv
    obtain ⟨_, _, _, h4⟩ := hInv'
    obtain ⟨_, hall⟩ := h4 (uid, l) (Notifier.mget_mem hl)
    obtain ⟨c', hc', _⟩ := hall cid hmem
    rw [hgone] at hc'
    cases hc'
  · intro hmem
    obtain ⟨c', hmem', _⟩ := Notifier.exists_of_mem_broadcast hmem
    have := Notifier.mem_mget_isSome hmem'
    rw [hgone] at this
    cases this

/-- C9 (witness): a connection 100 seconds past its last heartbeat is gone
after the sweep. -/
theorem c9_witness :
    Notifier.mget
      (Notifier.checkHeartbeats
        (Notifier.NotifierState.mk
          [("c1", Notifier.AdminConnection.mk 7 "a@x" "admin" 0 0 1 none)]
          [(7, ["c1"])])
        100000).adminConnections "c1" = none :=
  (c9_stale_connection_reaped
    (Notifier.NotifierState.mk
      [("c1", Notifier.AdminConnection.mk 7 "a@x" "admin" 0 0 1 none)]
      [(7, ["c1"])])
    100000 "c1" (Notifier.AdminConnection.mk 7 "a@x" "admin" 0 0 1 none)
    "signature_completed"
    ⟨by decide, by decide,
      by
        intro p hp
        rw [List.mem_singleton] at hp
        subst hp
        exact ⟨["c1"], rfl, by decide⟩,
      by
        intro q hq
        rw [List.mem_singleton] at hq
        subst hq
        refine ⟨by decide, ?_⟩
        intro cid hcid
        rw [List.mem_singleton] at hcid
        subst hcid
        exact ⟨Notifier.AdminConnection.mk 7 "a@x" "admin" 0 0 1 none, rfl, rfl⟩⟩
    rfl (by decide)).1

/-- C10: the registry consistency invariant — unique keys, every registered
connection indexed under exactly its recorded userId, every indexed id
registered with that userId, and no user mapped to an empty set — is
preserved by connect (under a fresh connectionId, as generated), by close,
by the heartbeat sweep, and by close-all. -/
theorem c10_registry_invariant (st : Notifier.NotifierState)
    (hInv : Notifier.Invariant st) :
    (∀ cred freshId now,
      Notifier.mget st.adminConnections freshId = none →
      Notifier.Invariant
        (Notifier.handleWebSocketConnection st cred freshId now).1)
    ∧ (∀ cid, Notifier.Invariant (Notifier.handleWebSocketClose st cid))
    ∧ (∀ now, Notifier.Invariant (Notifier.checkHeartbeats st now))
    ∧ Notifier.Invariant (Notifier.closeAllConnections st) := by
  refine ⟨?_, ?_, ?_, ?_⟩
  · intro cred freshId now hfresh
    cases cred with
    | missing => exact hInv
    | invalid => exact hInv
    | valid u =>
      by_cases hrole : u.role = "admin"
      · have hres : (Notifier.handleWebSocketConnection st
            (Notifier.Credential.valid u) freshId now).1
            = Notifier.registerConnection st freshId u now := by
          simp [Notifier.handleWebSocketConnection, hrole]
        rw [hres]
        exact Notifier.invariant_register st freshId u now hInv hfresh
      · have hres : (Notifier.handleWebSocketConnection st
            (Notifier.Credential.valid u) freshId now).1 = st := by
          simp [Notifier.handleWebSocketConnection, hrole]
        rw [hres]
        exact hInv
  · intro cid
    exact Notifier.invariant_close st cid hInv
  · intro now
    exact Notifier.invariant_checkHeartbeats st now hInv
  · exact Notifier.invariant_closeAll st

/-- C10 (witness): the invariant holds after closing the one connection of a
concrete consistent state. -/
theorem c10_witness :
    Notifier.Invariant
      (Notifier.handleWebSocketClose
        (Notifier.NotifierState.mk
          [("c1", Notifier.AdminConnection.mk 7 "a@x" "admin" 0 0 1 none)]
          [(7, ["c1"])])
        "c1") :=
  (c10_registry_invariant
    (Notifier.NotifierState.mk
      [("c1", Notifier.AdminConnection.mk 7 "a@x" "admin" 0 0 1 none)]
      [(7, ["c1"])])
    ⟨by decide, by decide,
      by
        intro p hp
        rw [List.mem_singleton] at hp
        subst hp
        exact ⟨["c1"], rfl, by decide⟩,
      by
        intro q hq
        rw [List.mem_singleton] at hq
        subst hq
        refine ⟨by decide, ?_⟩
        intro cid hcid
        rw [List.mem_singleton] at hcid
        subst hcid
        exact ⟨Notifier.AdminConnection.mk 7 "a@x" "admin" 0 0 1 none, rfl,
          rfl⟩⟩).2.1 "c1"

namespace CSVExport

theorem headerRow_eq : csvHeaderRow = rawRowText headerCells := by decide

theorem headerCells_raw_good : ∀ cell ∈ headerCells,
    (∀ ch ∈ cell, notSep ch = true) ∧ ¬ cell.head? = some '"' := by decide

end CSVExport

namespace CSVExport

theorem parseQuoted_exact : ∀ (cell rest : List Char),
    '"' ∉ cell → ¬ rest.head? = some '"' →
    parseQuoted (cell ++ '"' :: rest) = some (cell, rest)
  | [], rest, _, hhead => by
    cases rest with
    | nil => rfl
    | cons c2 rest2 =>
      have hc2 : ¬ c2 = '"' := by
        intro h
        exact hhead (by rw [h]; rfl)
      simp [parseQuoted, hc2]
  | a :: cell', rest, hq, hhead => by
    have ha : ¬ a = '"' := fun h => hq (h ▸ List.mem_cons_self a cell')
    have hq' : '"' ∉ cell' := fun h => hq (List.mem_cons_of_mem a h)
    rw [List.cons_append, parseQuoted.eq_def]
    simp only [ha, if_neg, ite_false]
    rw [parseQuoted_exact cell' rest hq' hhead]
    rfl

theorem takeWhile_notSep_append (cell : List Char) (d : Char)
    (rest : List Char) (hall : ∀ ch ∈ cell, notSep ch = true)
    (hd : notSep d = false) :
    (cell ++ d :: rest).takeWhile notSep = cell
    ∧ (cell ++ d :: rest).dropWhile notSep = d :: rest := by
  induction cell with
  | nil => simp [List.takeWhile, List.dropWhile, hd]
  | cons a cell' ih =>
    have ha : notSep a = true := hall a (List.mem_cons_self a cell')
    have hall' : ∀ ch ∈ cell', notSep ch = true :=
      fun ch hch => hall ch (List.mem_cons_of_mem a hch)
    obtain ⟨ht, hdp⟩ := ih hall'
    simp [List.takeWhile, List.dropWhile, ha, ht, hdp]

theorem parseField_quoted (cell rest : List Char) (hq : '"' ∉ cell)
    (hhead : ¬ rest.head? = some '"') :
    parseField ('"' :: cell ++ '"' :: rest) = some (cell, rest) := by
  show parseField ('"' :: (cell ++ '"' :: rest)) = some (cell, rest)
  simp only [parseField, if_pos rfl]
  exact parseQuoted_exact cell rest hq hhead

theorem parseField_raw (cell : List Char) (d : Char) (rest : List Char)
    (hall : ∀ ch ∈ cell, notSep ch = true)
    (hhead : ¬ cell.head? = some '"') (hd : notSep d = false) :
    parseField (cell ++ d :: rest) = some (cell, d :: rest) := by
  cases cell with
  | nil =>
    have hdq : ¬ d = '"' := by
      intro h
      rw [h] at hd
      cases hd
    simp only [List.nil_append, parseField, if_neg hdq]
    have := takeWhile_notSep_append [] d rest (by intro ch hch; cases hch) hd
    simp only [List.nil_append] at this
    rw [this.1, this.2]
  | cons a cell' =>
    have ha : ¬ a = '"' := by
      intro h
      exact hhead (by rw [h]; rfl)
    have := takeWhile_notSep_append (a :: cell') d rest hall hd
    simp only [List.cons_append, parseField, if_neg ha]
    rw [← List.cons_append]
    rw [this.1, this.2]

end CSVExport

namespace CSVExport

theorem rowText_cons (c : List Char) (cs : List (List Char)) (hcs : cs ≠ []) :
    rowText (c :: cs) = quoteCell c ++ ',' :: rowText cs := by
  cases cs with
  | nil => exact absurd rfl hcs
  | cons c2 cs' => rfl

theorem rawRowText_cons (c : List Char) (cs : List (List Char))
    (hcs : cs ≠ []) :
    rawRowText (c :: cs) = c ++ ',' :: rawRowText cs := by
  cases cs with
  | nil => exact absurd rfl hcs
  | cons c2 cs' => rfl

theorem joinRows_cons (r : List Char) (rs : List (List Char)) (hrs : rs ≠ []) :
    joinRows (r :: rs) = r ++ '\n' :: joinRows rs := by
  cases rs with
  | nil => exact absurd rfl hrs
  | cons r2 rs' => rfl

theorem length_le_rowText : ∀ cells : List (List Char),
    cells.length ≤ (rowText cells).length
  | [] => Nat.le_refl 0
  | [c] => by simp [rowText, quoteCell]
  | c :: c2 :: cs => by
    have ih := length_le_rowText (c2 :: cs)
    rw [rowText_cons c (c2 :: cs) (List.cons_ne_nil c2 cs)]
    simp only [List.length_cons, List.length_append, quoteCell] at *
    omega

theorem rowText_ne_nil (cells : List (List Char)) (h : cells ≠ []) :
    rowText cells ≠ [] := by
  cases cells with
  | nil => exact absurd rfl h
  | cons c cs =>
    cases cs with
    | nil => simp [rowText, quoteCell]
    | cons c2 cs' =>
      rw [rowText_cons c (c2 :: cs') (List.cons_ne_nil c2 cs')]
      simp [quoteCell]

theorem length_le_joinRows : ∀ rows : List (List Char),
    rows.length ≤ (joinRows rows).length + 1
  | [] => by simp
  | [r] => by simp [joinRows]
  | r :: r2 :: rs => by
    have ih := length_le_joinRows (r2 :: rs)
    rw [joinRows_cons r (r2 :: rs) (List.cons_ne_nil r2 rs)]
    simp only [List.length_cons, List.length_append] at *
    omega

theorem parseFields_quoted_row_newline :
    ∀ (cells : List (List Char)) (fuel : Nat) (rest : List Char),
    cells ≠ [] → (∀ cell ∈ cells, '"' ∉ cell) →
    cells.length ≤ fuel →
    parseFields fuel (rowText cells ++ '\n' :: rest) = some (cells, rest)
  | [], _, _, hne, _, _ => absurd rfl hne
  | [c], fuel, rest, _, hgood, hfuel => by
    have hq := hgood c (List.mem_singleton_self c)
    cases fuel with
    | zero => cases hfuel
    | succ f =>
      have hfield : parseField (rowText [c] ++ '\n' :: rest)
          = some (c, '\n' :: rest) := by
        show parseField (('"' :: c ++ ['"']) ++ '\n' :: rest) = _
        rw [List.append_assoc]
        exact parseField_quoted c ('\n' :: rest) hq (by simp)
      simp only [parseFields, hfield]
  | c :: c2 :: cs, fuel, rest, _, hgood, hfuel => by
    have hq := hgood c (List.mem_cons_self c _)
    have hgood' : ∀ cell ∈ c2 :: cs, '"' ∉ cell :=
      fun cell hcell => hgood cell (List.mem_cons_of_mem c hcell)
    cases fuel with
    | zero => cases hfuel
    | succ f =>
      have hfuel' : (c2 :: cs).length ≤ f := by
        simp only [List.length_cons] at hfuel ⊢
        omega
      have hfield : parseField (rowText (c :: c2 :: cs) ++ '\n' :: rest)
          = some (c, ',' :: (rowText (c2 :: cs) ++ '\n' :: rest)) := by
        rw [rowText_cons c (c2 :: cs) (List.cons_ne_nil c2 cs)]
        show parseField ((('"' :: c ++ ['"']) ++ ',' :: rowText (c2 :: cs))
          ++ '\n' :: rest) = _
        rw [List.append_assoc, List.append_assoc]
        exact parseField_quoted c (',' :: (rowText (c2 :: cs) ++ '\n' :: rest))
          hq (by simp)
      simp only [parseFields, hfield]
      rw [parseFields_quoted_row_newline (c2 :: cs) f rest
        (List.cons_ne_nil c2 cs) hgood' hfuel']
      rfl

theorem parseFields_quoted_row_eof :
    ∀ (cells : List (List Char)) (fuel : Nat),
    cells ≠ [] → (∀ cell ∈ cells, '"' ∉ cell) →
    cells.length ≤ fuel →
    parseFields fuel (rowText cells) = some (cells, [])
  | [], _, hne, _, _ => absurd rfl hne
  | [c], fuel, _, hgood, hfuel => by
    have hq := hgood c (List.mem_singleton_self c)
    cases fuel with
    | zero => cases hfuel
    | succ f =>
      have hfield : parseField (rowText [c]) = some (c, []) := by
        show parseField ('"' :: c ++ ['"']) = _
        have := parseField_quoted c [] hq (by simp)
        simpa using this
      simp only [parseFields, hfield]
  | c :: c2 :: cs, fuel, _, hgood, hfuel => by
    have hq := hgood c (List.mem_cons_self c _)
    have hgood' : ∀ cell ∈ c2 :: cs, '"' ∉ cell :=
      fun cell hcell => hgood cell (List.mem_cons_of_mem c hcell)
    cases fuel with
    | zero => cases hfuel
    | succ f =>
      have hfuel' : (c2 :: cs).length ≤ f := by
        simp only [List.length_cons] at hfuel ⊢
        omega
      have hfield : parseField (rowText (c :: c2 :: cs))
          = some (c, ',' :: rowText (c2 :: cs)) := by
        rw [rowText_cons c (c2 :: cs) (List.cons_ne_nil c2 cs)]
        show parseField (('"' :: c ++ ['"']) ++ ',' :: rowText (c2 :: cs)) = _
        rw [List.append_assoc]
        exact parseField_quoted c (',' :: rowText (c2 :: cs)) hq (by simp)
      simp only [parseFields, hfield]
      rw [parseFields_quoted_row_eof (c2 :: cs) f
        (List.cons_ne_nil c2 cs) hgood' hfuel']
      rfl

theorem parseFields_raw_row_newline :
    ∀ (cells : List (List Char)) (fuel : Nat) (rest : List Char),
    cells ≠ [] →
    (∀ cell ∈ cells, (∀ ch ∈ cell, notSep ch = true)
      ∧ ¬ cell.head? = some '"') →
    cells.length ≤ fuel →
    parseFields fuel (rawRowText cells ++ '\n' :: rest) = some (cells, rest)
  | [], _, _, hne, _, _ => absurd rfl hne
  | [c], fuel, rest, _, hgood, hfuel => by
    obtain ⟨hall, hhead⟩ := hgood c (List.mem_singleton_self c)
    cases fuel with
    | zero => cases hfuel
    | succ f =>
      have hfield : parseField (rawRowText [c] ++ '\n' :: rest)
          = some (c, '\n' :: rest) := by
        show parseField (c ++ '\n' :: rest) = _
        exact parseField_raw c '\n' rest hall hhead (by decide)
      simp only [parseFields, hfield]
  | c :: c2 :: cs, fuel, rest, _, hgood, hfuel => by
    obtain ⟨hall, hhead⟩ := hgood c (List.mem_cons_self c _)
    have hgood' : ∀ cell ∈ c2 :: cs, (∀ ch ∈ cell, notSep ch = true)
        ∧ ¬ cell.head? = some '"' :=
      fun cell hcell => hgood cell (List.mem_cons_of_mem c hcell)
    cases fuel with
    | zero => cases hfuel
    | succ f =>
      have hfuel' : (c2 :: cs).length ≤ f := by
        simp only [List.length_cons] at hfuel ⊢
        omega
      have hfield : parseField (rawRowText (c :: c2 :: cs) ++ '\n' :: rest)
          = some (c, ',' :: (rawRowText (c2 :: cs) ++ '\n' :: rest)) := by
        rw [rawRowText_cons c (c2 :: cs) (List.cons_ne_nil c2 cs)]
        rw [List.append_assoc]
        exact parseField_raw c ','
          (rawRowText (c2 :: cs) ++ '\n' :: rest) hall hhead (by decide)
      simp only [parseFields, hfield]
      rw [parseFields_raw_row_newline (c2 :: cs) f rest
        (List.cons_ne_nil c2 cs) hgood' hfuel']
      rfl

end CSVExport

namespace CSVExport

theorem parseCSVAux_nil (f : Nat) : parseCSVAux (f + 1) [] = some [] := rfl

theorem parseCSVAux_cons_unfold (f : Nat) (s : List Char) (hs : s ≠ []) :
    parseCSVAux (f + 1) s
      = match parseFields (s.length + 1) s with
        | none => none
        | some (row, rest) =>
          (parseCSVAux f rest).map (fun rows => row :: rows) := by
  cases s with
  | nil => exact absurd rfl hs
  | cons a as => rfl

theorem append_cons_ne_nil {α : Type} (x y : List α) (c : α) :
    x ++ c :: y ≠ [] := by
  cases x <;> simp

theorem parseCSVAux_rows :
    ∀ (rows : List (List (List Char))) (fuel : Nat),
    (∀ row ∈ rows, row ≠ [] ∧ ∀ cell ∈ row, '"' ∉ cell) →
    rows.length < fuel →
    parseCSVAux fuel (joinRows (rows.map rowText)) = some rows
  | [], fuel, _, hfuel => by
    cases fuel with
    | zero => omega
    | succ f => rfl
  | r :: rs, fuel, hgood, hfuel => by
    obtain ⟨hrne, hrgood⟩ := hgood r (List.mem_cons_self r rs)
    have hgood' : ∀ row ∈ rs, row ≠ [] ∧ ∀ cell ∈ row, '"' ∉ cell :=
      fun row hrow => hgood row (List.mem_cons_of_mem r hrow)
    cases fuel with
    | zero => omega
    | succ f =>
      cases rs with
      | nil =>
        show parseCSVAux (f + 1) (rowText r) = some [r]
        have hne := rowText_ne_nil r hrne
        rw [parseCSVAux_cons_unfold f _ hne]
        have hrow := parseFields_quoted_row_eof r ((rowText r).length + 1)
          hrne hrgood
          (Nat.le_trans (length_le_rowText r) (Nat.le_succ _))
        rw [hrow]
        have hf : 0 < f := by
          simp only [List.length_cons, List.length_nil] at hfuel
          omega
        cases f with
        | zero => omega
        | succ f' => rfl
      | cons r2 rs' =>
        have hjoin : joinRows ((r :: r2 :: rs').map rowText)
            = rowText r ++ '\n' :: joinRows ((r2 :: rs').map rowText) := by
          rw [List.map_cons]
          exact joinRows_cons _ _ (by simp)
        rw [hjoin]
        have hne := append_cons_ne_nil (rowText r)
          (joinRows ((r2 :: rs').map rowText)) '\n'
        rw [parseCSVAux_cons_unfold f _ hne]
        have hlen : r.length
            ≤ (rowText r ++ '\n' :: joinRows ((r2 :: rs').map rowText)).length
              + 1 := by
          have h1 := length_le_rowText r
          simp only [List.length_append, List.length_cons]
          omega
        rw [parseFields_quoted_row_newline r _ _ hrne hrgood hlen]
        have hfuel' : (r2 :: rs').length < f := by
          simp only [List.length_cons] at hfuel ⊢
          omega
        show (parseCSVAux f
          (joinRows ((r2 :: rs').map rowText))).map (fun rows => r :: rows)
          = some (r :: r2 :: rs')
        rw [parseCSVAux_rows (r2 :: rs') f hgood' hfuel']
        rfl

theorem cellsOf_length (requests : List ReqRow) (event : EvRow) :
    (cellsOf requests event).length = 8 := rfl

theorem headerCells_length : headerCells.length = 8 := rfl

end CSVExport

/-- C6 (amended): on any window whose eight cell strings are all free of
the double-quote character, the CSV export round-trips through a standard
CSV parser: the parse succeeds and returns the header row followed by
exactly one row per event, each field equal to its original cell string
(fields containing commas or newlines are fine — the quoting protects
them).  The unconditional claim fails because the source wraps cells in
quotes without doubling embedded quote characters. -/
theorem c6_csv_roundtrip_quote_free (requests : List CSVExport.ReqRow)
    (events : List CSVExport.EvRow)
    (hgood : ∀ e ∈ events, ∀ cell ∈ CSVExport.cellsOf requests e,
      '"' ∉ cell) :
    CSVExport.parseCSV (CSVExport.exportAuditTrailToCSV requests events)
      = some (CSVExport.headerCells
          :: events.map (CSVExport.cellsOf requests)) := by
  unfold CSVExport.parseCSV CSVExport.exportAuditTrailToCSV
  have hmap : events.map (fun e => CSVExport.rowText (CSVExport.cellsOf requests e))
      = (events.map (CSVExport.cellsOf requests)).map CSVExport.rowText := by
    rw [List.map_map]
    rfl
  rw [hmap]
  set J := CSVExport.joinRows
    ((events.map (CSVExport.cellsOf requests)).map CSVExport.rowText) with hJ
  have hne := CSVExport.append_cons_ne_nil CSVExport.csvHeaderRow J '\n'
  rw [CSVExport.parseCSVAux_cons_unfold _ _ hne]
  have hclen : 8 ≤ CSVExport.csvHeaderRow.length := by decide
  have hslen : (CSVExport.csvHeaderRow ++ '\n' :: J).length
      = CSVExport.csvHeaderRow.length + (J.length + 1) := by
    simp [List.length_append]
  have hhfuel : CSVExport.headerCells.length
      ≤ (CSVExport.csvHeaderRow ++ '\n' :: J).length + 1 := by
    rw [CSVExport.headerCells_length, hslen]
    omega
  have hheader : CSVExport.parseFields
      ((CSVExport.csvHeaderRow ++ '\n' :: J).length + 1)
      (CSVExport.csvHeaderRow ++ '\n' :: J)
      = some (CSVExport.headerCells, J) := by
    rw [CSVExport.headerRow_eq]
    exact CSVExport.parseFields_raw_row_newline CSVExport.headerCells _ J
      (by decide) CSVExport.headerCells_raw_good
      (by rw [← CSVExport.headerRow_eq]; exact hhfuel)
  rw [hheader]
  show (CSVExport.parseCSVAux (CSVExport.csvHeaderRow ++ '\n' :: J).length
      J).map (fun rows => CSVExport.headerCells :: rows)
    = some (CSVExport.headerCells :: events.map (CSVExport.cellsOf requests))
  have hrowsgood : ∀ row ∈ events.map (CSVExport.cellsOf requests),
      row ≠ [] ∧ ∀ cell ∈ row, '"' ∉ cell := by
    intro row hrow
    rw [List.mem_map] at hrow
    obtain ⟨e, he, hre⟩ := hrow
    subst hre
    refine ⟨?_, hgood e he⟩
    intro hnil
    have := CSVExport.cellsOf_length requests e
    rw [hnil] at this
    cases this
  have hJlen : (events.map (CSVExport.cellsOf requests)).length
      ≤ J.length + 1 := by
    rw [hJ]
    have := CSVExport.length_le_joinRows
      ((events.map (CSVExport.cellsOf requests)).map CSVExport.rowText)
    rw [List.length_map] at this
    exact this
  have hrowsfuel : (events.map (CSVExport.cellsOf requests)).length
      < (CSVExport.csvHeaderRow ++ '\n' :: J).length := by
    rw [hslen]
    omega
  rw [hJ, CSVExport.parseCSVAux_rows (events.map (CSVExport.cellsOf requests))
    _ hrowsgood hrowsfuel]
  rfl

/-- C6 (witness): a one-event window with quote-free fields round-trips. -/
theorem c6_witness :
    CSVExport.parseCSV
      (CSVExport.exportAuditTrailToCSV
        [CSVExport.ReqRow.mk 1 (CSVExport.str "x@y.com")
          (CSVExport.str "sent") (CSVExport.str "2026-01-01T00:00:00.000Z")
          none]
        [CSVExport.EvRow.mk 1 (CSVExport.str "signature_sent") none
          (CSVExport.str "2026-01-02T00:00:00.000Z")])
      = some (CSVExport.headerCells
          :: [CSVExport.cellsOf
            [CSVExport.ReqRow.mk 1 (CSVExport.str "x@y.com")
              (CSVExport.str "sent") (CSVExport.str "2026-01-01T00:00:00.000Z")
              none]
            (CSVExport.EvRow.mk 1 (CSVExport.str "signature_sent") none
              (CSVExport.str "2026-01-02T00:00:00.000Z"))]) :=
  c6_csv_roundtrip_quote_free
    [CSVExport.ReqRow.mk 1 (CSVExport.str "x@y.com")
      (CSVExport.str "sent") (CSVExport.str "2026-01-01T00:00:00.000Z") none]
    [CSVExport.EvRow.mk 1 (CSVExport.str "signature_sent") none
      (CSVExport.str "2026-01-02T00:00:00.000Z")]
    (by decide)

set_option maxRecDepth 4000 in
/-- C6 (counterexample): an actor email containing a double-quote character
is exported unescaped (the cell is wrapped in quotes with no doubling), and
the standard CSV parse of the exported text fails outright — the fields do
not parse back to their original strings as the claim requires. -/
theorem c6_counterexample :
    CSVExport.parseCSV
      (CSVExport.exportAuditTrailToCSV
        [CSVExport.ReqRow.mk 1 (CSVExport.str "x@y.com")
          (CSVExport.str "pending") (CSVExport.str "2026-01-01T00:00:00.000Z")
          none]
        [CSVExport.EvRow.mk 1 (CSVExport.str "signature_sent")
          (some (CSVExport.str "a\"b"))
          (CSVExport.str "2026-01-02T00:00:00.000Z")])
      = none := by
  decide
